import Mathlib

/-!
Verification development for the FMCSA extractor (src/extractor.js).

The JavaScript source is shallowly embedded as executable Lean functions.
Pages are opaque character lists scanned by hand-rolled matchers that mirror
the source's regular expressions (including greedy/backtracking behaviour
where it is observable).  Network effects are modelled by oracles:

* for the retrying fetch (fetchRetry, lines 47-62) an attempt oracle
  `Nat → FetchRes` gives the outcome of each individual attempt;
* for the traversal pipeline (handleMC / extractOne, lines 80-162) a
  per-identifier oracle `Env : Nat → String → FetchRes` gives the outcome of
  the i-th fetchRetry call made while processing that identifier, and each
  function additionally returns the list of URLs it fetched (its trace);
* WHATWG URL resolution (absoluteUrl, lines 34-36) is an external
  collaborator and is passed in as a function `Resolver`.

Case-insensitive matching is modelled by ASCII case folding (Char.toLower),
and the JavaScript whitespace class by the common whitespace characters.
-/

/-- Whitespace characters recognised by the model of the JS regex class
bs-s and of String.prototype.trim (ASCII whitespace plus NBSP). -/
def isJsWS (c : Char) : Bool :=
  c = ' ' ∨ c = '\t' ∨ c = '\n' ∨ c = '\r' ∨ c = '\x0b' ∨ c = '\x0c' ∨ c = ' '

/-- Match a literal pattern (given in lowercase) case-insensitively at the
head of the input; return the rest of the input on success. -/
def litCI : List Char → List Char → Option (List Char)
  | [], l => some l
  | _ :: _, [] => none
  | p :: ps, c :: cs => if c.toLower = p then litCI ps cs else none

/-- Leftmost-match search: try the matcher at every position, left to right.
Models the search phase of RegExp.prototype.match / exec. -/
def searchPos (f : List Char → Option α) : List Char → Option α
  | [] => none
  | l@(_ :: t) =>
    match f l with
    | some a => some a
    | none => searchPos f t

/-- Substring test on character lists. -/
def hasSubstring (pat : List Char) : List Char → Bool
  | [] => pat.isEmpty
  | l@(_ :: t) => pat.isPrefixOf l || hasSubstring pat t

/-- Case-folded substring test: does `l`, lowercased, contain the (lowercase)
pattern?  Models `String.prototype.toLowerCase().includes(pat)` and the
case-insensitive regex substring tests in the source. -/
def containsLowerSub (pat : String) (l : List Char) : Bool :=
  hasSubstring pat.data (l.map Char.toLower)

/-- Characters left unescaped by encodeURIComponent. -/
def isUnreservedURI (c : Char) : Bool :=
  c.isAlpha ∨ c.isDigit ∨
    c = '-' ∨ c = '_' ∨ c = '.' ∨ c = '!' ∨ c = '~' ∨ c = '*' ∨ c = '\'' ∨ c = '(' ∨ c = ')'

/-- Uppercase hex digit of a value below 16. -/
def hexDig (n : Nat) : Char :=
  if n < 10 then Char.ofNat (48 + n) else Char.ofNat (55 + n)

/-- UTF-8 bytes of a character (as used by encodeURIComponent). -/
def utf8BytesOf (c : Char) : List Nat :=
  let n := c.toNat
  if n < 0x80 then [n]
  else if n < 0x800 then [0xC0 + n / 0x40, 0x80 + n % 0x40]
  else if n < 0x10000 then
    [0xE0 + n / 0x1000, 0x80 + (n / 0x40) % 0x40, 0x80 + n % 0x40]
  else
    [0xF0 + n / 0x40000, 0x80 + (n / 0x1000) % 0x40, 0x80 + (n / 0x40) % 0x40, 0x80 + n % 0x40]

/-- Percent-encoding of one byte. -/
def pctByte (b : Nat) : List Char := ['%', hexDig (b / 16), hexDig (b % 16)]

/-- Model of JavaScript's encodeURIComponent. -/
def encodeURIComponent (s : String) : String :=
  ⟨(s.data.map (fun c =>
      if isUnreservedURI c then [c] else ((utf8BytesOf c).map pctByte).flatten)).flatten⟩

/-- Lines 29-32: strip all whitespace from the identifier and substitute it,
percent-encoded, into the fixed snapshot-query URL template. -/
def mcToSnapshotUrl (mc : String) : String :=
  "https://safer.fmcsa.dot.gov/query.asp?searchtype=ANY&query_type=queryCarrierSnapshot&query_param=MC_MX&query_string="
    ++ encodeURIComponent ⟨mc.data.filter (fun c => ¬ isJsWS c)⟩

/-- Outcome of one network read (or of one whole retried fetch): the body
text on success, an error message on failure.  A non-2xx status and a
timeout are both failures (lines 38-52). -/
inductive FetchRes where
  | ok (text : String)
  | err (msg : String)
deriving DecidableEq

/-- Per-identifier fetch oracle: the result of the i-th fetchRetry call made
while processing one identifier, as a function of the call index and URL. -/
abbrev Env := Nat → String → FetchRes

/-- External URL-resolution collaborator (absoluteUrl, lines 34-36):
`resolve base href` is the absolute URL of `href` against `base`. -/
abbrev Resolver := String → String → String

/-- Core loop of fetchRetry (lines 47-62) over an attempt oracle.
`i` is the index of the next attempt, `lastErr` the last error seen, `r` the
number of attempts still allowed.  Returns the final result, the number of
attempts performed and the total backoff time slept.  Note the source sleeps
the backoff even after the final failed attempt, before throwing. -/
def fetchRetryGo (attempt : Nat → FetchRes) (base : Nat) (i : Nat) (lastErr : Option String) :
    Nat → FetchRes × Nat × Nat
  | 0 =>
    (FetchRes.err (match lastErr with | some e => e | none => "fetch failed"), 0, 0)
  | r + 1 =>
    match attempt i with
    | FetchRes.ok t => (FetchRes.ok t, 1, 0)
    | FetchRes.err e =>
      let rest := fetchRetryGo attempt base (i + 1) (some e) r
      (rest.1, rest.2.1 + 1, base * 2 ^ i + rest.2.2)

/-- Lines 47-62: up to `tries` sequential attempts with exponential backoff
`base * 2 ^ i` after the i-th failed attempt; exhausting all attempts
surfaces the last observed error. -/
def fetchRetry (attempt : Nat → FetchRes) (tries : Nat) (base : Nat) : FetchRes × Nat × Nat :=
  fetchRetryGo attempt base 0 none tries

/-- Validity verdict of the gate (spec: ValidityGate). -/
inductive Verdict where
  | valid
  | invalid
deriving DecidableEq

/-- Matcher for the regex Power[ws]*Units[^0-9]*([0-9,]+) (case-insensitive)
anchored at the current position; returns the captured group.  The greedy
[^0-9]* stops at the first digit when one exists; when no digit follows,
backtracking hands back characters from the right until a comma (the only
other character [0-9,]+ accepts), so the group degenerates to a single
comma when the tail after "Units" has a comma but no digit. -/
def matchPUAt (l : List Char) : Option (List Char) :=
  (litCI "power".data l).bind fun r1 =>
    let r2 := r1.dropWhile isJsWS
    (litCI "units".data r2).bind fun r3 =>
      let tail := r3.dropWhile (fun c => ¬ c.isDigit)
      if tail ≠ [] then
        some (tail.takeWhile (fun c => c.isDigit ∨ c = ','))
      else if r3.contains ',' then some [','] else none

/-- Decimal value of a digit string (the value JavaScript's Number gives a
string of digits; Number of the empty string is 0). -/
def decValue (l : List Char) : Nat :=
  l.foldl (fun a c => 10 * a + (c.toNat - 48)) 0

/-- Lines 143-151 of handleMC: the validity gate.  Marker check on the
lowercased page, then the Power Units figure; the figure's value with
thousands-separator commas removed must not be zero. -/
def classify (html : String) : Verdict :=
  if containsLowerSub "record not found" html.data
      ∨ containsLowerSub "record inactive" html.data then
    Verdict.invalid
  else
    let puZero : Bool :=
      match searchPos matchPUAt html.data with
      | some g => decide (decValue (g.filter (fun c => c ≠ ',')) = 0)
      | none => false
    if puZero then Verdict.invalid else Verdict.valid

/-- Modelled from the spec (section 4.2): the validity rule as worded there.
Rule, in order: (a) case-insensitive marker "record not found" or "record
inactive" makes the page Invalid; (b) else a located "Power Units" figure
whose numeric value, thousands separators ignored, parses to exactly zero
makes it Invalid; (c) otherwise Valid. -/
def validityRuleSpec (html : String) : Verdict :=
  if containsLowerSub "record not found" html.data then Verdict.invalid
  else if containsLowerSub "record inactive" html.data then Verdict.invalid
  else
    match searchPos matchPUAt html.data with
    | some figure =>
      if decValue (figure.filter (fun c => c ≠ ',')) = 0 then Verdict.invalid
      else Verdict.valid
    | none => Verdict.valid

/-- Verdict of the lookup hop for one identifier under a fetch oracle: the
gate's verdict when the (retried) lookup fetch succeeds, Invalid when it
fails (lines 142-147 and the catch at lines 158-161). -/
def lookupVerdict (env : Env) (mc : String) : Verdict :=
  match env 0 (mcToSnapshotUrl mc) with
  | FetchRes.ok html => classify html
  | FetchRes.err _ => Verdict.invalid

/-- Dropping a prefix by a predicate never lengthens a list (termination
helper). -/
theorem lenDropWhileLe (p : α → Bool) (l : List α) : (l.dropWhile p).length ≤ l.length := by
  induction l with
  | nil => simp [List.dropWhile]
  | cons a t ih =>
    simp only [List.dropWhile]
    split
    · exact Nat.le_succ_of_le ih
    · simp

/-- Line 66: the global replace of <[^>]*> by a space.  A tag is an opening
angle bracket up to the first closing one; a bracket never followed by a
closing one matches nothing and is kept. -/
def stripTags (l : List Char) : List Char :=
  match l with
  | [] => []
  | c :: rest =>
    if c = '<' ∧ rest.contains '>' then
      ' ' :: stripTags ((rest.dropWhile (fun d => d ≠ '>')).drop 1)
    else c :: stripTags rest
termination_by l.length
decreasing_by
  · simp only [List.length_cons]
    have h1 : ((rest.dropWhile (fun d => d ≠ '>')).drop 1).length ≤ rest.length := by
      calc ((rest.dropWhile (fun d => d ≠ '>')).drop 1).length
          ≤ (rest.dropWhile (fun d => d ≠ '>')).length := by
            simp [List.length_drop]
        _ ≤ rest.length := lenDropWhileLe _ _
    omega
  · simp only [List.length_cons]; omega

/-- Global leftmost non-overlapping replacement of a (non-empty) literal
pattern, as String.prototype.replace with a global literal regex. -/
def replaceAll (pat rep : List Char) : List Char → List Char
  | [] => []
  | c :: t =>
    if h : pat ≠ [] ∧ pat.isPrefixOf (c :: t) then
      rep ++ replaceAll pat rep ((c :: t).drop pat.length)
    else c :: replaceAll pat rep t
termination_by l => l.length
decreasing_by
  · have hp : 0 < pat.length := by
      cases pat with
      | nil => exact absurd rfl h.1
      | cons a b => simp
    simp only [List.length_drop, List.length_cons]
    omega
  · simp only [List.length_cons]; omega

/-- Line 71: collapse every whitespace run to a single space. -/
def collapseWS : List Char → List Char
  | [] => []
  | c :: t =>
    if isJsWS c then ' ' :: collapseWS (t.dropWhile isJsWS)
    else c :: collapseWS t
termination_by l => l.length
decreasing_by
  · simp only [List.length_cons]
    exact Nat.lt_succ_of_le (lenDropWhileLe _ _)
  · simp only [List.length_cons]; omega

/-- String.prototype.trim: strip whitespace from both ends. -/
def trimEnds (l : List Char) : List Char :=
  ((l.dropWhile isJsWS).reverse.dropWhile isJsWS).reverse

/-- Lines 64-73: de-tag, decode the four entities, collapse whitespace and
trim, in the source's order. -/
def htmlToText (s : String) : String :=
  if s = "" then ""
  else
    ⟨trimEnds (collapseWS
      (replaceAll "&gt;".data ['>']
        (replaceAll "&lt;".data ['<']
          (replaceAll "&amp;".data ['&']
            (replaceAll "&nbsp;".data [' '] (stripTags s.data))))))⟩

/-- Take exactly `n` digits from the front. -/
def exactDigits (n : Nat) (l : List Char) : Option (List Char × List Char) :=
  let d := l.take n
  if d.length = n ∧ d.all Char.isDigit then some (d, l.drop n) else none

/-- Separator class of the phone regexes: [ws-] or, for the snapshot page
pattern of line 76, [ws-.]. -/
def isPhoneSep (withDot : Bool) (c : Char) : Bool :=
  isJsWS c ∨ c = '-' ∨ (withDot ∧ c = '.')

/-- Matcher for the phone regexes ((?d{3})?[sep]*d{3}[sep]*d{4}) anchored at
the current position, returning the whole matched substring.  The optional
parentheses and the separator runs are deterministic here because the
separator class excludes digits. -/
def phoneAt (withDot : Bool) (l : List Char) : Option (List Char) :=
  let (p1, r1) := match l with
    | '(' :: r => (['('], r)
    | _ => (([] : List Char), l)
  (exactDigits 3 r1).bind fun (d1, r2) =>
    let (p2, r3) := match r2 with
      | ')' :: r => ([')'], r)
      | _ => (([] : List Char), r2)
    let s1 := r3.takeWhile (isPhoneSep withDot)
    let r4 := r3.drop s1.length
    (exactDigits 3 r4).bind fun (d2, r5) =>
      let s2 := r5.takeWhile (isPhoneSep withDot)
      let r6 := r5.drop s2.length
      (exactDigits 4 r6).map fun (d3, _) =>
        p1 ++ d1 ++ p2 ++ s1 ++ d2 ++ s2 ++ d3

/-- Lines 75-78: first phone-shaped substring anywhere in the page (the
variant whose separator class includes the dot). -/
def extractPhoneAnywhere (html : String) : String :=
  match searchPos (phoneAt true) html.data with
  | some m => ⟨m⟩
  | none => ""

/-- First phone-shaped substring under the dot-less separator class (the
regexes of lines 125 and 128). -/
def phoneNoDot (s : String) : String :=
  match searchPos (phoneAt false) s.data with
  | some m => ⟨m⟩
  | none => ""

/-- Matcher of MC[-ws]?(d{3,7}) (case-insensitive) at the current position,
returning the captured digits.  The greedy d{3,7} takes at most seven
digits and needs at least three; the optional separator backtracks to the
no-separator branch only onto a non-digit, which then fails. -/
def mcCoreAt (l : List Char) : Option (List Char) :=
  (litCI "mc".data l).bind fun rest =>
    let withSep : Option (List Char) :=
      match rest with
      | c :: rest2 =>
        if c = '-' ∨ isJsWS c then
          let d := rest2.takeWhile Char.isDigit
          if 3 ≤ d.length then some (d.take 7) else none
        else none
      | [] => none
    match withSep with
    | some d => some d
    | none =>
      let d := rest.takeWhile Char.isDigit
      if 3 ≤ d.length then some (d.take 7) else none

/-- Pattern 2 of lines 87-92: the MC/MX/FF label, optional whitespace, then
the MC core. -/
def mcPat2At (l : List Char) : Option (List Char) :=
  (litCI "mc/mx/ff number(s):".data l).bind fun r => mcCoreAt (r.dropWhile isJsWS)

/-- Pattern 3 of lines 87-92: the MC/MX label, optional whitespace, then the
MC core. -/
def mcPat3At (l : List Char) : Option (List Char) :=
  (litCI "mc/mx number:".data l).bind fun r => mcCoreAt (r.dropWhile isJsWS)

/-- Pattern 4 of lines 87-92: the MC/MX label, optional whitespace, then
bare digits d{3,7}. -/
def mcPat4At (l : List Char) : Option (List Char) :=
  (litCI "mc/mx number:".data l).bind fun r =>
    let d := (r.dropWhile isJsWS).takeWhile Char.isDigit
    if 3 ≤ d.length then some (d.take 7) else none

/-- Lines 85-94: try the ordered pattern list, first match wins, then the
generic fallback (identical to the first pattern, hence never adding a
match); normalise to MC-<digits>, empty string when nothing matches. -/
def extractMC (html : String) : String :=
  let l := html.data
  let viaPats :=
    (searchPos mcCoreAt l).orElse fun _ =>
      (searchPos mcPat2At l).orElse fun _ =>
        (searchPos mcPat3At l).orElse fun _ => searchPos mcPat4At l
  match viaPats.orElse fun _ => searchPos mcCoreAt l with
  | some g => "MC-" ++ ⟨g⟩
  | none => ""

/-- Quote characters accepted by the href regexes' ["'] classes. -/
def isQuote (c : Char) : Bool := c = '"' ∨ c = '\''

/-- Matcher at the current position for href=["']([^"']*ALT[^"']*)["'] with
a containment check standing for the alternation ALT: the href keyword, an
opening quote, then the quote-free span up to the next quote, which must
satisfy `altCheck`.  Returns the captured span and the input after the
closing quote. -/
def hrefAt (altCheck : List Char → Bool) (l : List Char) : Option (List Char × List Char) :=
  (litCI "href=".data l).bind fun r =>
    match r with
    | q :: r2 =>
      if isQuote q then
        let span := r2.takeWhile (fun c => ¬ isQuote c)
        match r2.drop span.length with
        | _ :: after => if altCheck span then some (span, after) else none
        | [] => none
      else none
    | [] => none

/-- Alternation of the hop-2 link regex (line 101): safer_xfr.aspx, the
/SMS/safer_xfr.aspx variant it subsumes, or /SMS/Carrier/. -/
def smsAltCheck (span : List Char) : Bool :=
  containsLowerSub "safer_xfr.aspx" span
    ∨ containsLowerSub "/sms/safer_xfr.aspx" span
    ∨ containsLowerSub "/sms/carrier/" span

/-- Alternation of the hop-3 link regex (line 114); its second branch
/Carrier/d+/CarrierRegistration.aspx is subsumed by the first. -/
def regAltCheck (span : List Char) : Bool :=
  containsLowerSub "carrierregistration.aspx" span

/-- Lines 100-106: the first matching SMS href, resolved against the
snapshot URL; the loop breaks on the first regex match (its extra filter is
implied by the alternation), and an empty resolved link is falsy so hop 2
is skipped. -/
def findSmsLink (resolve : Resolver) (base : String) (html : String) : Option String :=
  match searchPos (hrefAt smsAltCheck) html.data with
  | some (span, _) =>
    let s := resolve base ⟨span⟩
    if s = "" then none else some s
  | none => none

/-- Lines 113-115: the registration-link loop keeps scanning, from the end
of each match, until a match resolves to a non-empty URL.  Fuel-driven
recursion; every match consumes at least the href keyword, so the fuel
(the input length) is never exhausted early. -/
def regScanAux (resolve : Resolver) (base : String) : Nat → List Char → Option String
  | 0, _ => none
  | _, [] => none
  | fuel + 1, l@(_ :: t) =>
    match hrefAt regAltCheck l with
    | some (span, after) =>
      let s := resolve base ⟨span⟩
      if s = "" then regScanAux resolve base fuel after else some s
    | none => regScanAux resolve base fuel t

/-- Lines 113-115: first registration href resolving to a non-empty URL. -/
def findRegLink (resolve : Resolver) (base : String) (html : String) : Option String :=
  regScanAux resolve base html.data.length html.data

/-- Does a span tag body carry class=["']dat["'] (case-insensitive)?  The
tag body is the quote-region between <span and the first closing angle
bracket, inside which the regex's [^>]* backtracks to find the class
attribute (line 119). -/
def hasClassDat (tag : List Char) : Bool :=
  (searchPos (fun l =>
    (litCI "class=".data l).bind fun r =>
      match r with
      | q :: r2 =>
        if isQuote q then
          (litCI "dat".data r2).bind fun r3 =>
            match r3 with
            | q2 :: _ => if isQuote q2 then some () else none
            | [] => none
        else none
      | [] => none) tag).isSome

/-- First occurrence of the (case-insensitive) pattern: the characters
before it and the input after it. -/
def splitFirstCI (pat : List Char) : List Char → Option (List Char × List Char)
  | [] =>
    match litCI pat [] with
    | some rest => some ([], rest)
    | none => none
  | l@(c :: t) =>
    match litCI pat l with
    | some rest => some ([], rest)
    | none => (splitFirstCI pat t).map fun p => (c :: p.1, p.2)

/-- Matcher for one span element of line 119 at the current position:
<span, a tag body (which must contain the dat class marker) up to the first
closing angle bracket, then the lazily captured content up to the first
</span>.  Returns the captured content and the input after the match. -/
def matchSpanAt (l : List Char) : Option (List Char × List Char) :=
  (litCI "<span".data l).bind fun r1 =>
    let tagBody := r1.takeWhile (fun c => c ≠ '>')
    match r1.drop tagBody.length with
    | [] => none
    | _ :: afterTag =>
      if hasClassDat tagBody then splitFirstCI "</span>".data afterTag
      else none

/-- Lines 119-126: all (non-overlapping, left-to-right) span captures, as
the global exec loop produces them.  Fuel-driven; each match consumes at
least the <span literal, so the fuel (the input length) suffices. -/
def findSpansAux : Nat → List Char → List (List Char)
  | 0, _ => []
  | _, [] => []
  | fuel + 1, l@(_ :: t) =>
    match matchSpanAt l with
    | some (g, rest) => g :: findSpansAux fuel rest
    | none => findSpansAux fuel t

/-- All dat-class span captures of a page. -/
def findSpans (l : List Char) : List (List Char) := findSpansAux l.length l

/-- Character class of the email regex's local part (line 127). -/
def isEmailLocal (c : Char) : Bool :=
  c.isAlpha ∨ c.isDigit ∨ c = '.' ∨ c = '_' ∨ c = '%' ∨ c = '+' ∨ c = '-'

/-- Character class of the email regex's domain part (line 127). -/
def isEmailDomain (c : Char) : Bool :=
  c.isAlpha ∨ c.isDigit ∨ c = '.' ∨ c = '-'

/-- Rightmost dot of the domain run that is followed by at least two
letters: the split the greedy domain part backtracks to.  Returns the
characters before the dot and the maximal letter run after it. -/
def lastDotSplit : List Char → Option (List Char × List Char)
  | [] => none
  | c :: t =>
    match lastDotSplit t with
    | some p => some (c :: p.1, p.2)
    | none =>
      if c = '.' ∧ 2 ≤ (t.takeWhile Char.isAlpha).length then
        some ([], t.takeWhile Char.isAlpha)
      else none

/-- Matcher for the fallback email regex of line 127 at the current
position: a non-empty local-part run, an at sign, then the domain run whose
chosen dot must leave a non-empty domain part before it. -/
def emailAt (l : List Char) : Option (List Char) :=
  let loc := l.takeWhile isEmailLocal
  if loc = [] then none
  else
    match l.drop loc.length with
    | '@' :: r =>
      let dom := r.takeWhile isEmailDomain
      (lastDotSplit dom).bind fun p =>
        if p.1 = [] then none
        else some (loc ++ '@' :: (p.1 ++ '.' :: p.2))
    | _ => none

/-- First email-shaped substring of a raw page (line 127). -/
def emailAnywhere (s : String) : String :=
  match searchPos emailAt s.data with
  | some m => ⟨m⟩
  | none => ""

/-- Lines 119-130: walk the dat-class spans of the registration page; the
first de-tagged text containing an at sign is the email candidate, the
first text with a phone-shaped substring gives the phone candidate; each
falls back to a raw-page regex scan when no span yields it.  Returns the
final email (possibly empty) and phone candidate (possibly empty). -/
def extractRegContacts (regHtml : String) : String × String :=
  let texts := (findSpans regHtml.data).map fun g => htmlToText ⟨g⟩
  let foundEmail0 :=
    match texts.find? (fun t => t.data.contains '@') with
    | some t => t
    | none => ""
  let foundPhone0 :=
    match (texts.filterMap fun t =>
      match phoneNoDot t with
      | "" => none
      | p => some p).head? with
    | some p => p
    | none => ""
  let foundEmail := if foundEmail0 = "" then emailAnywhere regHtml else foundEmail0
  let foundPhone := if foundPhone0 = "" then phoneNoDot regHtml else foundPhone0
  (foundEmail, foundPhone)

/-- ContactRecord (the row object of line 135): `mcNumber` is the
registryNumber and `url` the sourceURL of the spec's data model. -/
structure Row where
  email : String
  mcNumber : String
  phone : String
  url : String
deriving DecidableEq

/-- Lines 80-137: the extraction step.  It re-fetches the lookup URL (call
index 1 of the oracle) and parses the registry number and coarse phone from
that page; hop 2 and hop 3 are attempted only when the corresponding link
is found, and their fetch failures are swallowed by the inner catch of line
132, degrading to the record built so far.  A failure of the lookup
re-fetch itself escapes (first component none).  Also returns the list of
URLs passed to fetchRetry. -/
def extractOne (resolve : Resolver) (env : Env) (url : String) : Option Row × List String :=
  match env 1 url with
  | FetchRes.err _ => (none, [url])
  | FetchRes.ok html =>
    let mcNumber := extractMC html
    let phone0 := extractPhoneAnywhere html
    match findSmsLink resolve url html with
    | none => (some ⟨"", mcNumber, phone0, url⟩, [url])
    | some smsLink =>
      match env 2 smsLink with
      | FetchRes.err _ => (some ⟨"", mcNumber, phone0, url⟩, [url, smsLink])
      | FetchRes.ok smsHtml =>
        match findRegLink resolve smsLink smsHtml with
        | none => (some ⟨"", mcNumber, phone0, url⟩, [url, smsLink])
        | some regLink =>
          match env 3 regLink with
          | FetchRes.err _ => (some ⟨"", mcNumber, phone0, url⟩, [url, smsLink, regLink])
          | FetchRes.ok regHtml =>
            let c := extractRegContacts regHtml
            (some ⟨c.1, mcNumber, if c.2 = "" then phone0 else c.2, url⟩,
              [url, smsLink, regLink])

/-- Outcome of handleMC for one identifier: the shapes of the objects
returned at lines 146, 151, 153, 157 and 160. -/
inductive Outcome where
  | invalid
  | validUrls (url : String)
  | validRow (url : String) (row : Row)
deriving DecidableEq

/-- Lines 139-162: fetch the lookup page (oracle call 0), run the validity
gate, stop in URL-only mode, otherwise run the extraction step; any escaped
error (lookup fetch failure, or the extraction step's lookup re-fetch
failure) is caught and yields the invalid outcome.  Also returns the list
of URLs passed to fetchRetry while handling the identifier. -/
def handleMC (resolve : Resolver) (env : Env) (mode : String) (mc : String) :
    Outcome × List String :=
  let url := mcToSnapshotUrl mc
  match env 0 url with
  | FetchRes.err _ => (Outcome.invalid, [url])
  | FetchRes.ok html =>
    match classify html with
    | Verdict.invalid => (Outcome.invalid, [url])
    | Verdict.valid =>
      if mode = "urls" then (Outcome.validUrls url, [url])
      else
        match extractOne resolve env url with
        | (none, tr) => (Outcome.invalid, url :: tr)
        | (some row, tr) => (Outcome.validRow url row, url :: tr)

/-- Line 200: double every quote character of a field value. -/
def escQuotes : List Char → List Char
  | [] => []
  | c :: r => if c = '"' then '"' :: '"' :: escQuotes r else c :: escQuotes r

/-- Line 200: a CSV field — the value wrapped in quotes with embedded
quotes doubled. -/
def csvField (s : String) : String := ⟨'"' :: (escQuotes s.data ++ ['"'])⟩

/-- Line 198: the fixed header row. -/
def csvHeader : String := "email,mcNumber,phone,url"

/-- Line 200: one CSV data row in the fixed column order. -/
def csvRowStr (r : Row) : String :=
  String.intercalate "," [csvField r.email, csvField r.mcNumber, csvField r.phone, csvField r.url]

/-- Lines 198-201: the checkpoint CSV of a row list — header line then one
line per accumulated row. -/
def csvOf (rows : List Row) : String :=
  String.intercalate "\n" (csvHeader :: rows.map csvRowStr)

/-- Modelled from the spec (section 8, quote-escaping round-trip): a
standard delimited-format reader's unquoting of one field — an opening
quote, then content where a doubled quote denotes a literal quote and a
single quote must terminate the field. -/
def unquoteAux : List Char → Option (List Char)
  | [] => none
  | c :: r =>
    if c = '"' then
      match r with
      | [] => some []
      | c2 :: r2 => if c2 = '"' then (unquoteAux r2).map (fun t => '"' :: t) else none
    else (unquoteAux r).map (fun t => c :: t)

/-- Modelled from the spec: parse one quoted CSV field back to its value. -/
def parseQuotedField (s : String) : Option String :=
  match s.data with
  | c :: r => if c = '"' then (unquoteAux r).map (fun l => (⟨l⟩ : String)) else none
  | [] => none

/-- Line 196: timestamps are embedded in file names with colons and dots
replaced by dashes. -/
def sanitizeTs (ts : String) : String :=
  ⟨ts.data.map fun c => if c = ':' ∨ c = '.' then '-' else c⟩

/-- Lines 196-197: the checkpoint file name for a wall-clock timestamp. -/
def csvName (ts : String) : String := "output/fmcsa_batch_" ++ sanitizeTs ts ++ ".csv"

/-- Line 212: the URL-list file name for a wall-clock timestamp. -/
def urlsName (t : Nat) : String := "output/fmcsa_remaining_urls_" ++ toString t ++ ".txt"

/-- Configuration read from the environment at lines 11-15. -/
structure Config where
  concurrency : Nat
  delay : Nat
  batchSize : Nat
  waitSeconds : Nat
  mode : String

/-- Observable side effects of the run loop: sleeps and file writes. -/
inductive Event where
  | sleepEv (ms : Nat)
  | csvWrite (name content : String)
  | urlsWrite (name content : String)
deriving DecidableEq

/-- The RunAccumulator: the rows and validUrls arrays of lines 173-174. -/
abbrev RunAcc := List Row × List String

/-- Lines 185-190: merge one outcome into the accumulator — a valid outcome
appends its URL, and its row when present; an invalid outcome is skipped. -/
def applyOutcome (st : RunAcc) : Outcome → RunAcc
  | Outcome.invalid => st
  | Outcome.validUrls u => (st.1, st.2 ++ [u])
  | Outcome.validRow u r => (st.1 ++ [r], st.2 ++ [u])

/-- Process one identifier and merge its outcome (the per-result body of the
merge loop at lines 185-190). -/
def accStep (resolve : Resolver) (renv : String → Env) (mode : String) (st : RunAcc)
    (mc : String) : RunAcc :=
  applyOutcome st (handleMC resolve (renv mc) mode mc).1

/-- The accumulator contents after processing a list of identifiers in
order (wave outcomes are merged in dispatch order, and waves and batches
are strictly sequential, so batching does not affect the accumulator). -/
def accOf (resolve : Resolver) (renv : String → Env) (mode : String)
    (mcs : List String) : RunAcc :=
  mcs.foldl (accStep resolve renv mode) ([], [])

/-- Fuel-driven chunking loop; the fuel (initially the list length) only
pads the recursion depth, every positive-size step consumes list elements. -/
def chunksOfAux (n : Nat) : Nat → List α → List (List α)
  | _, [] => []
  | 0, _ => []
  | fuel + 1, l => l.take n :: chunksOfAux n fuel (l.drop n)

/-- Contiguous chunks of size `n` (the batch partition of line 176 and the
wave partition of line 182).  For n = 0 the source loop would not advance;
the model returns no chunks. -/
def chunksOf (n : Nat) (l : List α) : List (List α) :=
  match n with
  | 0 => []
  | m + 1 => chunksOfAux (m + 1) l.length l

/-- The fuel does not matter once it covers the list length. -/
theorem chunksOfAux_fuel {α : Type} (m : Nat) :
    ∀ (f1 f2 : Nat) (l : List α), l.length ≤ f1 → l.length ≤ f2 →
      chunksOfAux (m + 1) f1 l = chunksOfAux (m + 1) f2 l := by
  intro f1
  induction f1 with
  | zero =>
    intro f2 l hl _
    cases l with
    | nil => cases f2 <;> rfl
    | cons a t => simp at hl
  | succ f1 ih =>
    intro f2 l hl1 hl2
    cases l with
    | nil => cases f2 <;> rfl
    | cons a t =>
      cases f2 with
      | zero => simp at hl2
      | succ f2 =>
        simp only [chunksOfAux]
        rw [ih f2 ((a :: t).drop (m + 1))
          (by simp only [List.length_drop, List.length_cons]
              simp only [List.length_cons] at hl1
              omega)
          (by simp only [List.length_drop, List.length_cons]
              simp only [List.length_cons] at hl2
              omega)]

/-- Chunking the empty list gives no chunks. -/
theorem chunksOf_nil {α : Type} (n : Nat) : chunksOf n ([] : List α) = [] := by
  cases n <;> rfl

/-- One-step unfolding of the chunk partition for a positive chunk size. -/
theorem chunksOf_cons_eq {α : Type} (m : Nat) (a : α) (t : List α) :
    chunksOf (m + 1) (a :: t) =
      (a :: t).take (m + 1) :: chunksOf (m + 1) ((a :: t).drop (m + 1)) := by
  show chunksOfAux (m + 1) (t.length + 1) (a :: t) = _
  simp only [chunksOfAux]
  rw [chunksOfAux_fuel m t.length ((a :: t).drop (m + 1)).length ((a :: t).drop (m + 1))
    (by simp only [List.length_drop, List.length_cons]; omega) (Nat.le_refl _)]
  rfl

/-- Lines 181-193: dispatch one wave (its outcomes merged in dispatch
order), then sleep max(50, delay) milliseconds. -/
def waveStep (resolve : Resolver) (renv : String → Env) (mode : String) (delay : Nat)
    (st : RunAcc × List Event) (w : List String) : RunAcc × List Event :=
  (w.foldl (accStep resolve renv mode) st.1,
    st.2 ++ [Event.sleepEv (Nat.max 50 delay)])

/-- Lines 176-209: process the batches in order.  After each batch, write a
checkpoint CSV of the entire accumulator (named by the k-th checkpoint
timestamp), then sleep waitSeconds seconds when more batches remain. -/
def runBatches (cfg : Config) (resolve : Resolver) (renv : String → Env)
    (tss : Nat → String) : Nat → RunAcc × List Event → List (List String) → RunAcc × List Event
  | _, st, [] => st
  | k, st, b :: bs =>
    let st1 := (chunksOf cfg.concurrency b).foldl (waveStep resolve renv cfg.mode cfg.delay) st
    let st2 := (st1.1, st1.2 ++ [Event.csvWrite (csvName (tss k)) (csvOf st1.1.1)])
    let st3 :=
      if 0 < cfg.waitSeconds ∧ bs ≠ [] then
        (st2.1, st2.2 ++ [Event.sleepEv (cfg.waitSeconds * 1000)])
      else st2
    runBatches cfg resolve renv tss (k + 1) st3 bs

/-- Lines 164-216: the whole run over an already-parsed identifier list.
`tss k` is the wall-clock timestamp of the k-th checkpoint and `tEnd` the
timestamp of the final URL-list write.  In URL-only mode, one plain-text
file listing the accumulated valid lookup URLs is written at the very end. -/
def runModel (cfg : Config) (resolve : Resolver) (renv : String → Env)
    (tss : Nat → String) (tEnd : Nat) (mcs : List String) : RunAcc × List Event :=
  let st := runBatches cfg resolve renv tss 0 (([], []), []) (chunksOf cfg.batchSize mcs)
  if cfg.mode = "urls" then
    (st.1, st.2 ++ [Event.urlsWrite (urlsName tEnd) (String.intercalate "\n" st.1.2)])
  else st

/-- The checkpoint CSV writes of an event list, in order. -/
def csvWritesOf (ev : List Event) : List (String × String) :=
  ev.filterMap fun e =>
    match e with
    | Event.csvWrite n c => some (n, c)
    | _ => none

/-- The URL-list writes of an event list, in order. -/
def urlsWritesOf (ev : List Event) : List (String × String) :=
  ev.filterMap fun e =>
    match e with
    | Event.urlsWrite n c => some (n, c)
    | _ => none

/-- The lookup URLs of the identifiers whose lookup page passes the gate,
in processing order. -/
def validLookupUrls (renv : String → Env) (mcs : List String) : List String :=
  (mcs.filter fun mc => decide (lookupVerdict (renv mc) mc = Verdict.valid)).map mcToSnapshotUrl

/-- C2: for every lookup page text, the verdict is computed by the ordered
rule: not-found/inactive marker makes it Invalid; else a located Power
Units figure whose value (commas removed) parses to exactly zero makes it
Invalid; otherwise Valid.  The gate of lines 142-151 equals the spec's
rule. -/
theorem c2_validity_rule (html : String) : classify html = validityRuleSpec html := by
  unfold classify validityRuleSpec
  by_cases hA : containsLowerSub "record not found" html.data
  · simp [hA]
  · by_cases hB : containsLowerSub "record inactive" html.data
    · simp [hA, hB]
    · simp only [hA, hB, Bool.false_eq_true, or_self, if_false]
      cases hg : searchPos matchPUAt html.data with
      | none => simp
      | some g =>
        by_cases hz : decValue (g.filter (fun c => c ≠ ',')) = 0 <;> simp [hz]

/-- C3: an identifier whose lookup page is classified Invalid produces the
invalid outcome (no ContactRecord) and its trace is exactly the lookup
fetch — no hop-2 or hop-3 fetch is issued. -/
theorem c3_invalid_short_circuit (resolve : Resolver) (env : Env) (mode mc : String)
    (html : String) (h0 : env 0 (mcToSnapshotUrl mc) = FetchRes.ok html)
    (hc : classify html = Verdict.invalid) :
    handleMC resolve env mode mc = (Outcome.invalid, [mcToSnapshotUrl mc]) := by
  unfold handleMC
  simp [h0, hc]

/-- Witness for C3 at a concrete not-found page. -/
theorem c3_invalid_short_circuit_witness :
    handleMC (fun _ h => h) (fun _ _ => FetchRes.ok "SAFER: Record Not Found") "both" "42" =
      (Outcome.invalid, [mcToSnapshotUrl "42"]) :=
  c3_invalid_short_circuit (fun _ h => h) (fun _ _ => FetchRes.ok "SAFER: Record Not Found")
    "both" "42" "SAFER: Record Not Found" rfl (by decide)

/-- The retry loop performs at most as many attempts as it is allowed. -/
theorem fetchRetryGo_attempts_le (attempt : Nat → FetchRes) (base : Nat) :
    ∀ (r i : Nat) (le : Option String), (fetchRetryGo attempt base i le r).2.1 ≤ r := by
  intro r
  induction r with
  | zero => intro i le; simp [fetchRetryGo]
  | succ n ih =>
    intro i le
    simp only [fetchRetryGo]
    cases h : attempt i with
    | ok t => simp
    | err e => simpa using Nat.succ_le_succ (ih (i + 1) (some e))

/-- A first success at relative attempt k resolves the loop with k failures
behind it and the geometric backoff sum waited. -/
theorem fetchRetryGo_success (attempt : Nat → FetchRes) (base : Nat) :
    ∀ (k i r : Nat) (le : Option String) (t : String), k < r →
      (∀ j, j < k → ∃ e, attempt (i + j) = FetchRes.err e) →
      attempt (i + k) = FetchRes.ok t →
      fetchRetryGo attempt base i le r =
        (FetchRes.ok t, k + 1, ∑ j ∈ Finset.range k, base * 2 ^ (i + j)) := by
  intro k
  induction k with
  | zero =>
    intro i r le t hr _ hok
    cases r with
    | zero => omega
    | succ n =>
      simp only [Nat.add_zero] at hok
      simp [fetchRetryGo, hok]
  | succ k ih =>
    intro i r le t hr hf hok
    cases r with
    | zero => omega
    | succ n =>
      obtain ⟨e, he⟩ := hf 0 (Nat.succ_pos k)
      rw [Nat.add_zero] at he
      have hrec := ih (i + 1) n (some e) t (by omega)
        (fun j hj => by
          obtain ⟨e2, he2⟩ := hf (j + 1) (by omega)
          exact ⟨e2, by rw [← he2]; congr 1; omega⟩)
        (by rw [← hok]; congr 1; omega)
      simp only [fetchRetryGo, he, hrec]
      refine Prod.ext rfl (Prod.ext rfl ?_)
      simp only
      rw [Finset.sum_range_succ']
      have : ∀ j, base * 2 ^ (i + 1 + j) = base * 2 ^ (i + (j + 1)) := by
        intro j; congr 2; omega
      rw [Finset.sum_congr rfl (fun j _ => this j)]
      simp only [Nat.add_zero]
      omega

/-- When every allowed attempt fails, the loop surfaces the error of the
last attempt. -/
theorem fetchRetryGo_exhaust (attempt : Nat → FetchRes) (base : Nat) :
    ∀ (r i : Nat) (le : Option String), 0 < r →
      (∀ j, j < r → ∃ e, attempt (i + j) = FetchRes.err e) →
      ∃ e, attempt (i + (r - 1)) = FetchRes.err e ∧
        (fetchRetryGo attempt base i le r).1 = FetchRes.err e := by
  intro r
  induction r with
  | zero => omega
  | succ n ih =>
    intro i le _ hf
    obtain ⟨e, he⟩ := hf 0 (Nat.succ_pos n)
    rw [Nat.add_zero] at he
    cases n with
    | zero =>
      refine ⟨e, by simpa using he, ?_⟩
      simp [fetchRetryGo, he]
    | succ m =>
      obtain ⟨e2, he2, hres⟩ := ih (i + 1) (some e) (Nat.succ_pos m)
        (fun j hj => by
          obtain ⟨e3, he3⟩ := hf (j + 1) (by omega)
          exact ⟨e3, by rw [← he3]; congr 1; omega⟩)
      refine ⟨e2, by rw [← he2]; congr 1; omega, ?_⟩
      simp only [fetchRetryGo, he]
      exact hres

/-- C4: the retrying fetch performs at most maxAttempts sequential
attempts; a fetch that fails exactly k < maxAttempts times and then
succeeds returns the successful text having waited the sum of
base * 2 ^ i for i below k; a fetch all of whose attempts fail surfaces
the last observed error. -/
theorem c4_retry_backoff (attempt : Nat → FetchRes) (tries base : Nat) :
    (fetchRetry attempt tries base).2.1 ≤ tries
    ∧ (∀ k t, k < tries → (∀ j, j < k → ∃ e, attempt j = FetchRes.err e) →
        attempt k = FetchRes.ok t →
        fetchRetry attempt tries base =
          (FetchRes.ok t, k + 1, ∑ j ∈ Finset.range k, base * 2 ^ j))
    ∧ (0 < tries → (∀ j, j < tries → ∃ e, attempt j = FetchRes.err e) →
        ∃ e, attempt (tries - 1) = FetchRes.err e ∧
          (fetchRetry attempt tries base).1 = FetchRes.err e) := by
  refine ⟨fetchRetryGo_attempts_le attempt base tries 0 none, ?_, ?_⟩
  · intro k t hk hf hok
    have h := fetchRetryGo_success attempt base k 0 tries none t hk
      (fun j hj => by simpa using hf j hj) (by simpa using hok)
    simpa [fetchRetry] using h
  · intro ht hf
    have h := fetchRetryGo_exhaust attempt base tries 0 none ht
      (fun j hj => by simpa using hf j hj)
    simpa [fetchRetry] using h

/-- Witness for C4: one failure then success waits one backoff interval. -/
theorem c4_retry_backoff_witness :
    fetchRetry (fun i => if i = 0 then FetchRes.err "boom" else FetchRes.ok "page") 3 2000 =
      (FetchRes.ok "page", 2, 2000) := by
  have h := (c4_retry_backoff
      (fun i => if i = 0 then FetchRes.err "boom" else FetchRes.ok "page") 3 2000).2.1 1 "page"
    (by omega)
    (fun j hj => ⟨"boom", by
      have hj0 : j = 0 := by omega
      simp [hj0]⟩)
    (by simp)
  simpa using h

/-- Unquoting inverts quote-doubling, with the closing quote appended. -/
theorem unquoteAux_escQuotes (l : List Char) :
    unquoteAux (escQuotes l ++ ['"']) = some l := by
  induction l with
  | nil => simp [escQuotes, unquoteAux]
  | cons c t ih =>
    by_cases hc : c = '"'
    · subst hc
      simp [escQuotes, unquoteAux, ih]
    · simp only [escQuotes, hc, if_false]
      rw [unquoteAux.eq_def]
      simp [hc, ih]

/-- C9: serializing any field value (wrapping in quotes, doubling embedded
quotes, line 200) and parsing it back with the standard unquoting rule
reproduces the value exactly. -/
theorem c9_quote_roundtrip (v : String) : parseQuotedField (csvField v) = some v := by
  obtain ⟨d⟩ := v
  have h := unquoteAux_escQuotes d
  simp [parseQuotedField, csvField, h]

/-- Merging an outcome only appends: the merged accumulator is the old one
with the outcome's own contribution appended. -/
theorem applyOutcome_split (st : RunAcc) (o : Outcome) :
    applyOutcome st o =
      (st.1 ++ (applyOutcome ([], []) o).1, st.2 ++ (applyOutcome ([], []) o).2) := by
  cases st with
  | mk r u => cases o <;> simp [applyOutcome]

/-- Folding identifiers from any accumulator appends exactly what folding
them from the empty accumulator produces. -/
theorem foldl_accStep_split (R : Resolver) (E : String → Env) (M : String) :
    ∀ (l : List String) (a : RunAcc),
      l.foldl (accStep R E M) a =
        (a.1 ++ (accOf R E M l).1, a.2 ++ (accOf R E M l).2) := by
  intro l
  induction l with
  | nil =>
    intro a
    simp [accOf]
  | cons mc t ih =>
    intro a
    have hstep : accStep R E M a mc =
        (a.1 ++ (accStep R E M ([], []) mc).1, a.2 ++ (accStep R E M ([], []) mc).2) := by
      unfold accStep
      exact applyOutcome_split a (handleMC R (E mc) M mc).1
    calc (mc :: t).foldl (accStep R E M) a
        = t.foldl (accStep R E M) (accStep R E M a mc) := rfl
      _ = ((accStep R E M a mc).1 ++ (accOf R E M t).1,
            (accStep R E M a mc).2 ++ (accOf R E M t).2) := ih _
      _ = (a.1 ++ ((accStep R E M ([], []) mc).1 ++ (accOf R E M t).1),
            a.2 ++ ((accStep R E M ([], []) mc).2 ++ (accOf R E M t).2)) := by
          rw [hstep]; simp [List.append_assoc]
      _ = (a.1 ++ (accOf R E M (mc :: t)).1, a.2 ++ (accOf R E M (mc :: t)).2) := by
          have : accOf R E M (mc :: t) =
              ((accStep R E M ([], []) mc).1 ++ (accOf R E M t).1,
                (accStep R E M ([], []) mc).2 ++ (accOf R E M t).2) := by
            unfold accOf
            calc (mc :: t).foldl (accStep R E M) ([], [])
                = t.foldl (accStep R E M) (accStep R E M ([], []) mc) := rfl
              _ = _ := ih _
          rw [this]

/-- The accumulator over a concatenation is the componentwise
concatenation of the accumulators. -/
theorem accOf_append (R : Resolver) (E : String → Env) (M : String) (l1 l2 : List String) :
    accOf R E M (l1 ++ l2) =
      ((accOf R E M l1).1 ++ (accOf R E M l2).1,
        (accOf R E M l1).2 ++ (accOf R E M l2).2) := by
  unfold accOf
  rw [List.foldl_append]
  exact foldl_accStep_split R E M l2 _

/-- Chunking then flattening restores the list (chunk size positive). -/
theorem chunksOf_flatten {α : Type} (m : Nat) :
    ∀ l : List α, (chunksOf (m + 1) l).flatten = l
  | [] => by rw [chunksOf_nil]; rfl
  | a :: t => by
    rw [chunksOf_cons_eq]
    simp only [List.flatten_cons]
    rw [chunksOf_flatten m ((a :: t).drop (m + 1))]
    exact List.take_append_drop _ _
termination_by l => l.length
decreasing_by
  simp only [List.length_drop, List.length_cons]
  omega

/-- The first k chunks, flattened, are the first k * (m+1) elements. -/
theorem chunksOf_take_flatten {α : Type} (m : Nat) :
    ∀ (k : Nat) (l : List α),
      ((chunksOf (m + 1) l).take k).flatten = l.take (k * (m + 1)) := by
  intro k
  induction k with
  | zero => intro l; simp
  | succ k ih =>
    intro l
    cases l with
    | nil => rw [chunksOf_nil]; simp
    | cons a t =>
      rw [chunksOf_cons_eq]
      simp only [List.take_succ_cons, List.flatten_cons]
      rw [ih]
      rw [show (k + 1) * (m + 1) = (m + 1) + k * (m + 1) by ring]
      rw [List.take_add]
      simp

/-- Folding waves processes their identifiers in order and emits one
inter-wave sleep of max(50, delay) per wave. -/
theorem foldl_waveStep (R : Resolver) (E : String → Env) (M : String) (d : Nat) :
    ∀ (ws : List (List String)) (st : RunAcc × List Event),
      ws.foldl (waveStep R E M d) st =
        (ws.flatten.foldl (accStep R E M) st.1,
          st.2 ++ List.replicate ws.length (Event.sleepEv (Nat.max 50 d))) := by
  intro ws
  induction ws with
  | nil => intro st; simp
  | cons w t ih =>
    intro st
    simp only [List.foldl_cons]
    rw [ih]
    simp [waveStep, List.foldl_append, List.replicate_succ]

/-- Checkpoint-write extraction distributes over concatenation. -/
theorem csvWritesOf_append (a b : List Event) :
    csvWritesOf (a ++ b) = csvWritesOf a ++ csvWritesOf b := by
  simp [csvWritesOf]

/-- Sleeps contribute no checkpoint writes. -/
theorem csvWritesOf_replicate_sleep (n ms : Nat) :
    csvWritesOf (List.replicate n (Event.sleepEv ms)) = [] := by
  induction n with
  | zero => simp [csvWritesOf]
  | succ k ih => simpa [csvWritesOf, List.replicate_succ] using ih

/-- URL-list-write extraction distributes over concatenation. -/
theorem urlsWritesOf_append (a b : List Event) :
    urlsWritesOf (a ++ b) = urlsWritesOf a ++ urlsWritesOf b := by
  simp [urlsWritesOf]

/-- Sleeps contribute no URL-list writes. -/
theorem urlsWritesOf_replicate_sleep (n ms : Nat) :
    urlsWritesOf (List.replicate n (Event.sleepEv ms)) = [] := by
  induction n with
  | zero => simp [urlsWritesOf]
  | succ k ih => simpa [urlsWritesOf, List.replicate_succ] using ih

/-- The final accumulator of the batch loop is the fold over all batched
identifiers in order (batch and wave structure do not affect it). -/
theorem runBatches_state (cfg : Config) (R : Resolver) (E : String → Env)
    (tss : Nat → String) (hc : 0 < cfg.concurrency) :
    ∀ (bs : List (List String)) (k : Nat) (st : RunAcc × List Event),
      (runBatches cfg R E tss k st bs).1 =
        bs.flatten.foldl (accStep R E cfg.mode) st.1 := by
  intro bs
  induction bs with
  | nil => intro k st; simp [runBatches]
  | cons b t ih =>
    intro k st
    obtain ⟨m, hm⟩ : ∃ m, cfg.concurrency = m + 1 := ⟨cfg.concurrency - 1, by omega⟩
    rw [runBatches, ih]
    have hwaves := foldl_waveStep R E cfg.mode cfg.delay (chunksOf cfg.concurrency b) st
    rw [List.flatten_cons, List.foldl_append, hm] at *
    split <;> simp [hwaves, chunksOf_flatten]

/-- The checkpoint writes of the batch loop: one per batch, in order, each
carrying the k-th timestamped name and the CSV of the full accumulator
after that batch. -/
theorem runBatches_csvWrites (cfg : Config) (R : Resolver) (E : String → Env)
    (tss : Nat → String) (hc : 0 < cfg.concurrency) :
    ∀ (bs : List (List String)) (k : Nat) (st : RunAcc × List Event),
      csvWritesOf (runBatches cfg R E tss k st bs).2 =
        csvWritesOf st.2 ++ (List.range bs.length).map (fun j =>
          (csvName (tss (k + j)),
            csvOf (st.1.1 ++ (accOf R E cfg.mode ((bs.take (j + 1)).flatten)).1))) := by
  intro bs
  induction bs with
  | nil => intro k st; simp [runBatches]
  | cons b t ih =>
    intro k st
    obtain ⟨m, hm⟩ : ∃ m, cfg.concurrency = m + 1 := ⟨cfg.concurrency - 1, by omega⟩
    rw [runBatches, ih, hm]
    have hwaves := foldl_waveStep R E cfg.mode cfg.delay (chunksOf (m + 1) b) st
    have hsplit := foldl_accStep_split R E cfg.mode b st.1
    rw [chunksOf_flatten] at hwaves
    rw [List.length_cons, List.range_succ_eq_map]
    simp only [List.map_cons, List.map_map]
    split <;>
      simp [hwaves, hsplit, csvWritesOf_append, csvWritesOf_replicate_sleep, csvWritesOf,
        accOf_append, List.append_assoc, Nat.add_assoc, Nat.add_comm, Nat.add_left_comm]

/-- The batch loop writes no URL-list file. -/
theorem runBatches_urlsWrites (cfg : Config) (R : Resolver) (E : String → Env)
    (tss : Nat → String) :
    ∀ (bs : List (List String)) (k : Nat) (st : RunAcc × List Event),
      urlsWritesOf (runBatches cfg R E tss k st bs).2 = urlsWritesOf st.2 := by
  intro bs
  induction bs with
  | nil => intro k st; simp [runBatches]
  | cons b t ih =>
    intro k st
    rw [runBatches, ih]
    have hwaves := foldl_waveStep R E cfg.mode cfg.delay (chunksOf cfg.concurrency b) st
    split <;>
      simp [hwaves, urlsWritesOf_append, urlsWritesOf_replicate_sleep, urlsWritesOf]

/-- With no inter-batch wait configured, every sleep the batch loop adds is
the inter-wave sleep of max(50, delay) milliseconds. -/
theorem runBatches_sleeps (cfg : Config) (R : Resolver) (E : String → Env)
    (tss : Nat → String) (hw : cfg.waitSeconds = 0) :
    ∀ (bs : List (List String)) (k : Nat) (st : RunAcc × List Event) (ms : Nat),
      Event.sleepEv ms ∈ (runBatches cfg R E tss k st bs).2 →
      Event.sleepEv ms ∈ st.2 ∨ ms = Nat.max 50 cfg.delay := by
  intro bs
  induction bs with
  | nil => intro k st ms hmem; exact Or.inl (by simpa [runBatches] using hmem)
  | cons b t ih =>
    intro k st ms hmem
    rw [runBatches] at hmem
    have hwaves := foldl_waveStep R E cfg.mode cfg.delay (chunksOf cfg.concurrency b) st
    rw [if_neg (by simp [hw])] at hmem
    rcases ih _ _ _ hmem with hin | hms
    · simp only [hwaves, List.mem_append] at hin
      rcases hin with (hin | hrep) | hone
      · exact Or.inl hin
      · exact Or.inr (by
          have := List.eq_of_mem_replicate hrep
          exact (Event.sleepEv.injEq _ _).mp this)
      · simp at hone
    · exact Or.inr hms

/-- One-step decomposition of the accumulator fold. -/
theorem accOf_cons (R : Resolver) (E : String → Env) (M : String) (mc : String)
    (t : List String) :
    accOf R E M (mc :: t) =
      ((accStep R E M ([], []) mc).1 ++ (accOf R E M t).1,
        (accStep R E M ([], []) mc).2 ++ (accOf R E M t).2) := by
  unfold accOf
  calc (mc :: t).foldl (accStep R E M) ([], [])
      = t.foldl (accStep R E M) (accStep R E M ([], []) mc) := rfl
    _ = _ := foldl_accStep_split R E M t _

/-- A validRow outcome of handleMC carries the identifier's lookup URL and
certifies that the lookup fetch succeeded and the gate passed. -/
theorem handleMC_validRow (R : Resolver) (env : Env) (M mc u : String) (row : Row)
    (tr : List String) (h : handleMC R env M mc = (Outcome.validRow u row, tr)) :
    u = mcToSnapshotUrl mc ∧
      ∃ html, env 0 (mcToSnapshotUrl mc) = FetchRes.ok html ∧
        classify html = Verdict.valid := by
  simp only [handleMC] at h
  split at h
  · simp at h
  · next html heq =>
    split at h
    · simp at h
    · next hcval =>
      refine ⟨?_, html, heq, hcval⟩
      by_cases hm : M = "urls"
      · rw [if_pos hm] at h; simp at h
      · rw [if_neg hm] at h
        split at h
        · simp at h
        · simp at h; exact h.1.1.symm

/-- In URL-only mode handleMC stops after the gate: the outcome is decided
by the lookup verdict and the trace is the lookup fetch alone. -/
theorem handleMC_urls (R : Resolver) (env : Env) (mc : String) :
    handleMC R env "urls" mc =
      ((match lookupVerdict env mc with
        | Verdict.valid => Outcome.validUrls (mcToSnapshotUrl mc)
        | Verdict.invalid => Outcome.invalid), [mcToSnapshotUrl mc]) := by
  unfold handleMC lookupVerdict
  cases h0 : env 0 (mcToSnapshotUrl mc) with
  | err e => simp [h0]
  | ok html => cases hc : classify html <;> simp [h0, hc]

/-- In URL-only mode the accumulator collects no rows and exactly the
lookup URLs of the identifiers that pass the gate, in order. -/
theorem accOf_urls (R : Resolver) (E : String → Env) :
    ∀ mcs : List String, accOf R E "urls" mcs = ([], validLookupUrls E mcs) := by
  intro mcs
  induction mcs with
  | nil => simp [accOf, validLookupUrls]
  | cons mc t ih =>
    rw [accOf_cons, ih]
    unfold accStep
    rw [handleMC_urls]
    cases hv : lookupVerdict (E mc) mc with
    | valid => simp [applyOutcome, validLookupUrls, hv, List.filter_cons]
    | invalid => simp [applyOutcome, validLookupUrls, hv, List.filter_cons]

/-- Every row of the accumulator comes from an identifier of the processed
list whose handleMC outcome was a validRow carrying that row. -/
theorem mem_accOf_rows (R : Resolver) (E : String → Env) (M : String) :
    ∀ (w : List String) (row : Row), row ∈ (accOf R E M w).1 →
      ∃ mc ∈ w, ∃ tr, handleMC R (E mc) M mc =
        (Outcome.validRow (mcToSnapshotUrl mc) row, tr) := by
  intro w
  induction w with
  | nil => intro row h; simp [accOf] at h
  | cons mc t ih =>
    intro row h
    rw [accOf_cons] at h
    rcases List.mem_append.mp h with hl | hr
    · unfold accStep at hl
      cases ho : (handleMC R (E mc) M mc) with
      | mk o tr =>
        rw [ho] at hl
        cases o with
        | invalid => simp [applyOutcome] at hl
        | validUrls u => simp [applyOutcome] at hl
        | validRow u r2 =>
          have hrow : row = r2 := by simpa [applyOutcome] using hl
          obtain ⟨hu, -⟩ := handleMC_validRow R (E mc) M mc u r2 tr ho
          refine ⟨mc, List.mem_cons_self mc t, tr, ?_⟩
          rw [hrow, ← hu]
          exact ho
    · obtain ⟨mc2, hmem, tr, heq⟩ := ih row hr
      exact ⟨mc2, List.mem_cons_of_mem mc hmem, tr, heq⟩

/-- C5: at every batch boundary the checkpoint written is the CSV
serialization (fixed column order, quoted fields with doubled quotes) of
the entire cumulative accumulator so far — the rows of all identifiers
processed up to that batch's end, not the batch's delta — under a file
name embedding the checkpoint's wall-clock timestamp. -/
theorem c5_checkpoint_snapshots (cfg : Config) (R : Resolver) (E : String → Env)
    (tss : Nat → String) (tEnd : Nat) (mcs : List String)
    (hb : 0 < cfg.batchSize) (hc : 0 < cfg.concurrency) :
    csvWritesOf (runModel cfg R E tss tEnd mcs).2 =
      (List.range (chunksOf cfg.batchSize mcs).length).map (fun j =>
        (csvName (tss j),
          csvOf ((accOf R E cfg.mode (mcs.take ((j + 1) * cfg.batchSize))).1))) := by
  obtain ⟨m, hm⟩ : ∃ m, cfg.batchSize = m + 1 := ⟨cfg.batchSize - 1, by omega⟩
  have hbody := runBatches_csvWrites cfg R E tss hc (chunksOf cfg.batchSize mcs) 0 (([], []), [])
  unfold runModel
  split
  · rw [csvWritesOf_append, hbody]
    simp [csvWritesOf, hm, chunksOf_take_flatten]
  · rw [hbody]
    simp [csvWritesOf, hm, chunksOf_take_flatten]

/-- Witness for C5 at a concrete two-identifier, batch-size-one run. -/
theorem c5_checkpoint_snapshots_witness :
    csvWritesOf (runModel ⟨1, 300, 1, 0, "both"⟩ (fun _ h => h)
        (fun _ => fun _ _ => FetchRes.err "down") (fun k => toString k) 0 ["a", "b"]).2 =
      (List.range (chunksOf 1 ["a", "b"]).length).map (fun j =>
        (csvName (toString j),
          csvOf ((accOf (fun _ h => h) (fun _ => fun _ _ => FetchRes.err "down") "both"
            (["a", "b"].take ((j + 1) * 1))).1))) :=
  c5_checkpoint_snapshots ⟨1, 300, 1, 0, "both"⟩ (fun _ h => h)
    (fun _ => fun _ _ => FetchRes.err "down") (fun k => toString k) 0 ["a", "b"]
    (by decide) (by decide)

/-- C6 counterexample: with a configured inter-wave delay of 0 ms the
scheduler sleeps 50 ms after the wave (line 192 sleeps max(50, delay)),
not the configured 0 ms. -/
theorem c6_counterexample :
    ((runModel ⟨1, 0, 1, 0, "both"⟩ (fun _ h => h) (fun _ => fun _ _ => FetchRes.err "down")
        (fun _ => "TS") 0 ["7"]).2.filterMap (fun e =>
          match e with
          | Event.sleepEv ms => some ms
          | _ => none)) = [50]
    ∧ (50 : Nat) ≠ (⟨1, 0, 1, 0, "both"⟩ : Config).delay := by
  constructor
  · decide
  · decide

/-- C6 (amended): after each wave the scheduler sleeps max(50 ms, the
configured delay) — exactly the configured delay only when it is at least
50 ms, which holds for the 300 ms default.  Stated for runs without an
inter-batch wait, whose sleeps are exactly the inter-wave sleeps. -/
theorem c6_interwave_sleep (cfg : Config) (R : Resolver) (E : String → Env)
    (tss : Nat → String) (tEnd : Nat) (mcs : List String) (hw : cfg.waitSeconds = 0)
    (ms : Nat) (hmem : Event.sleepEv ms ∈ (runModel cfg R E tss tEnd mcs).2) :
    ms = Nat.max 50 cfg.delay := by
  simp only [runModel] at hmem
  have hfin : ∀ hbase : Event.sleepEv ms ∈
      (runBatches cfg R E tss 0 (([], []), []) (chunksOf cfg.batchSize mcs)).2,
      ms = Nat.max 50 cfg.delay := by
    intro hbase
    rcases runBatches_sleeps cfg R E tss hw (chunksOf cfg.batchSize mcs) 0 (([], []), []) ms
      hbase with hin | hms
    · simp at hin
    · exact hms
  split at hmem
  · rcases List.mem_append.mp hmem with hbase | hone
    · exact hfin hbase
    · simp at hone
  · exact hfin hmem

/-- Witness for C6 (amended): the 50 ms sleep of the counterexample run is
max(50, delay). -/
theorem c6_interwave_sleep_witness : (50 : Nat) = Nat.max 50 0 :=
  c6_interwave_sleep ⟨1, 0, 1, 0, "both"⟩ (fun _ h => h)
    (fun _ => fun _ _ => FetchRes.err "down") (fun _ => "TS") 0 ["7"] rfl 50 (by decide)

/-- C7: in URL-only mode every identifier's processing stops at the gate
(its trace is the lookup fetch alone, so no deep extraction fetch is
made), and exactly one newline-delimited URL-list file is written, as the
very last event of the run, listing exactly the lookup URLs of the valid
identifiers in processing order. -/
theorem c7_urls_mode (cfg : Config) (R : Resolver) (E : String → Env) (tss : Nat → String)
    (tEnd : Nat) (mcs : List String) (hmode : cfg.mode = "urls")
    (hb : 0 < cfg.batchSize) (hc : 0 < cfg.concurrency) :
    (∀ (env : Env) (mc : String), (handleMC R env "urls" mc).2 = [mcToSnapshotUrl mc])
    ∧ urlsWritesOf (runModel cfg R E tss tEnd mcs).2 =
        [(urlsName tEnd, String.intercalate "\n" (validLookupUrls E mcs))]
    ∧ (runModel cfg R E tss tEnd mcs).2.getLast? =
        some (Event.urlsWrite (urlsName tEnd)
          (String.intercalate "\n" (validLookupUrls E mcs))) := by
  obtain ⟨m, hm⟩ : ∃ m, cfg.batchSize = m + 1 := ⟨cfg.batchSize - 1, by omega⟩
  have hstate := runBatches_state cfg R E tss hc (chunksOf cfg.batchSize mcs) 0 (([], []), [])
  rw [hm, chunksOf_flatten] at hstate
  have hacc : (runBatches cfg R E tss 0 (([], []), []) (chunksOf cfg.batchSize mcs)).1
      = ([], validLookupUrls E mcs) := by
    rw [hm, hstate]
    show accOf R E cfg.mode mcs = _
    rw [hmode, accOf_urls]
  refine ⟨?_, ?_, ?_⟩
  · intro env mc
    rw [handleMC_urls]
  · simp only [runModel]
    rw [if_pos hmode, urlsWritesOf_append,
      runBatches_urlsWrites cfg R E tss (chunksOf cfg.batchSize mcs) 0 (([], []), [])]
    simp [urlsWritesOf, hacc]
  · simp only [runModel]
    rw [if_pos hmode, List.getLast?_concat]
    simp [hacc]

/-- Witness for C7 at a concrete one-identifier URL-only run. -/
theorem c7_urls_mode_witness :
    urlsWritesOf (runModel ⟨1, 300, 1, 0, "urls"⟩ (fun _ h => h)
        (fun _ => fun _ _ => FetchRes.ok "Power Units: 3") (fun k => toString k) 5 ["x"]).2 =
      [(urlsName 5, String.intercalate "\n"
        (validLookupUrls (fun _ => fun _ _ => FetchRes.ok "Power Units: 3") ["x"]))] :=
  (c7_urls_mode ⟨1, 300, 1, 0, "urls"⟩ (fun _ h => h)
    (fun _ => fun _ _ => FetchRes.ok "Power Units: 3") (fun k => toString k) 5 ["x"]
    rfl (by decide) (by decide)).2.1

/-- C8: the RunAccumulator is append-only — every processing step yields
the old rows and valid-URL lists with suffixes appended, never truncating
or deduplicating; every row present was contributed by an identifier whose
handleMC outcome was a validRow; and a validRow outcome certifies that the
identifier's validity verdict was Valid. -/
theorem c8_append_only (R : Resolver) (E : String → Env) (M : String) :
    (∀ (a : RunAcc) (w : List String), ∃ dr du,
        w.foldl (accStep R E M) a = (a.1 ++ dr, a.2 ++ du))
    ∧ (∀ (a : RunAcc) (w : List String) (row : Row),
        row ∈ (w.foldl (accStep R E M) a).1 →
        row ∈ a.1 ∨ ∃ mc ∈ w, ∃ tr, handleMC R (E mc) M mc =
          (Outcome.validRow (mcToSnapshotUrl mc) row, tr))
    ∧ (∀ (env : Env) (mode mc u : String) (row : Row) (tr : List String),
        handleMC R env mode mc = (Outcome.validRow u row, tr) →
        ∃ html, env 0 (mcToSnapshotUrl mc) = FetchRes.ok html ∧
          classify html = Verdict.valid) := by
  refine ⟨?_, ?_, ?_⟩
  · intro a w
    exact ⟨(accOf R E M w).1, (accOf R E M w).2, foldl_accStep_split R E M w a⟩
  · intro a w row hmem
    rw [foldl_accStep_split] at hmem
    rcases List.mem_append.mp hmem with h | h
    · exact Or.inl h
    · exact Or.inr (mem_accOf_rows R E M w row h)
  · intro env mode mc u row tr h
    exact (handleMC_validRow R env mode mc u row tr h).2

/-- Witness for C8: from a concrete validRow outcome, the gate verdict of
the fetched page is Valid. -/
theorem c8_append_only_witness : classify "Power Units: 9" = Verdict.valid := by
  obtain ⟨html, henv, hcl⟩ :=
    (c8_append_only (fun _ h => h) (fun _ => fun _ _ => FetchRes.ok "Power Units: 9")
      "both").2.2 (fun _ _ => FetchRes.ok "Power Units: 9") "both" "5" (mcToSnapshotUrl "5")
      ⟨"", "", "", mcToSnapshotUrl "5"⟩ [mcToSnapshotUrl "5", mcToSnapshotUrl "5"] (by decide)
  have hh : "Power Units: 9" = html := by
    have := henv
    simpa using this
  rw [hh]
  exact hcl

/-- The snapshot lookup URL is never the empty string (it starts with the
fixed query template). -/
theorem mcToSnapshotUrl_ne_empty (mc : String) : mcToSnapshotUrl mc ≠ "" := by
  intro h
  have hlen : (mcToSnapshotUrl mc).length = 0 := by rw [h]; rfl
  rw [mcToSnapshotUrl, String.length_append] at hlen
  have hp : 0 < ("https://safer.fmcsa.dot.gov/query.asp?searchtype=ANY&query_type=queryCarrierSnapshot&query_param=MC_MX&query_string=" : String).length := by
    decide
  omega

/-- C1 counterexample: an identifier whose lookup page passes the gate
(classified Valid) in full-extraction mode is demoted to the invalid
outcome — no ContactRecord at all — when the extraction step's re-fetch of
the lookup URL (oracle call 1) fails: the thrown error is caught at line
158 and handleMC returns valid:false. -/
theorem c1_counterexample :
    classify "Power Units: 9" = Verdict.valid
    ∧ handleMC (fun _ h => h)
        (fun k _ => if k = 0 then FetchRes.ok "Power Units: 9" else FetchRes.err "HTTP 500")
        "both" "88" =
      (Outcome.invalid, [mcToSnapshotUrl "88", mcToSnapshotUrl "88"]) := by
  constructor
  · decide
  · decide

/-- C1 (amended): in full-extraction mode, an identifier that passes the
gate and whose extraction-step re-fetch of the lookup URL succeeds yields
a validRow outcome — a ContactRecord whose sourceURL is the (non-empty)
lookup URL — regardless of the hop-2/hop-3 link discovery and fetch
outcomes; only a failing lookup re-fetch demotes it. -/
theorem c1_valid_record (R : Resolver) (env : Env) (mc : String) (html html2 : String)
    (h0 : env 0 (mcToSnapshotUrl mc) = FetchRes.ok html)
    (hv : classify html = Verdict.valid)
    (h1 : env 1 (mcToSnapshotUrl mc) = FetchRes.ok html2) :
    ∃ row tr, handleMC R env "both" mc = (Outcome.validRow (mcToSnapshotUrl mc) row, tr) ∧
      row.url = mcToSnapshotUrl mc ∧ row.url ≠ "" := by
  have hne := mcToSnapshotUrl_ne_empty mc
  cases hs : findSmsLink R (mcToSnapshotUrl mc) html2 with
  | none =>
    simp only [handleMC, extractOne, h0, hv, h1, hs]
    rw [if_neg (by decide : ¬ ("both" = "urls"))]
    exact ⟨_, _, rfl, rfl, hne⟩
  | some smsLink =>
    cases h2 : env 2 smsLink with
    | err e =>
      simp only [handleMC, extractOne, h0, hv, h1, hs, h2]
      rw [if_neg (by decide : ¬ ("both" = "urls"))]
      exact ⟨_, _, rfl, rfl, hne⟩
    | ok smsHtml =>
      cases hr : findRegLink R smsLink smsHtml with
      | none =>
        simp only [handleMC, extractOne, h0, hv, h1, hs, h2, hr]
        rw [if_neg (by decide : ¬ ("both" = "urls"))]
        exact ⟨_, _, rfl, rfl, hne⟩
      | some regLink =>
        cases h3 : env 3 regLink with
        | err e =>
          simp only [handleMC, extractOne, h0, hv, h1, hs, h2, hr, h3]
          rw [if_neg (by decide : ¬ ("both" = "urls"))]
          exact ⟨_, _, rfl, rfl, hne⟩
        | ok regHtml =>
          simp only [handleMC, extractOne, h0, hv, h1, hs, h2, hr, h3]
          rw [if_neg (by decide : ¬ ("both" = "urls"))]
          exact ⟨_, _, rfl, rfl, hne⟩

/-- Witness for C1 (amended) at a concrete gate-passing page whose
re-fetch also succeeds: the outcome is not the invalid one. -/
theorem c1_valid_record_witness :
    (handleMC (fun _ h => h) (fun _ _ => FetchRes.ok "Power Units: 9") "both" "9").1 ≠
      Outcome.invalid := by
  obtain ⟨row, tr, heq, -, -⟩ := c1_valid_record (fun _ h => h)
    (fun _ _ => FetchRes.ok "Power Units: 9") "9" "Power Units: 9" "Power Units: 9"
    rfl (by decide) rfl
  rw [heq]
  simp

/-- C10: in full-extraction mode, an identifier that passes the gate has
its lookup URL fetched a second time inside the extraction step (the trace
starts with two copies of the lookup URL); the registry number and coarse
phone come from that re-fetched page, not the page the gate inspected; and
if the re-fetch fails after its retries, the identifier produces no record
at all. -/
theorem c10_refetch_lookup (R : Resolver) (env : Env) (mc : String) (html : String)
    (h0 : env 0 (mcToSnapshotUrl mc) = FetchRes.ok html)
    (hv : classify html = Verdict.valid) :
    (∃ tr, (handleMC R env "both" mc).2 =
        mcToSnapshotUrl mc :: mcToSnapshotUrl mc :: tr)
    ∧ (∀ html2, env 1 (mcToSnapshotUrl mc) = FetchRes.ok html2 →
        ∃ row tr, handleMC R env "both" mc =
            (Outcome.validRow (mcToSnapshotUrl mc) row, tr) ∧
          row.mcNumber = extractMC html2 ∧
          (findSmsLink R (mcToSnapshotUrl mc) html2 = none →
            row = ⟨"", extractMC html2, extractPhoneAnywhere html2, mcToSnapshotUrl mc⟩))
    ∧ (∀ e, env 1 (mcToSnapshotUrl mc) = FetchRes.err e →
        handleMC R env "both" mc =
          (Outcome.invalid, [mcToSnapshotUrl mc, mcToSnapshotUrl mc])) := by
  refine ⟨?_, ?_, ?_⟩
  · cases h1 : env 1 (mcToSnapshotUrl mc) with
    | err e =>
      simp only [handleMC, extractOne, h0, hv, h1]
      rw [if_neg (by decide : ¬ ("both" = "urls"))]
      exact ⟨[], rfl⟩
    | ok html2 =>
      cases hs : findSmsLink R (mcToSnapshotUrl mc) html2 with
      | none =>
        simp only [handleMC, extractOne, h0, hv, h1, hs]
        rw [if_neg (by decide : ¬ ("both" = "urls"))]
        exact ⟨[], rfl⟩
      | some smsLink =>
        cases h2 : env 2 smsLink with
        | err e =>
          simp only [handleMC, extractOne, h0, hv, h1, hs, h2]
          rw [if_neg (by decide : ¬ ("both" = "urls"))]
          exact ⟨[smsLink], rfl⟩
        | ok smsHtml =>
          cases hr : findRegLink R smsLink smsHtml with
          | none =>
            simp only [handleMC, extractOne, h0, hv, h1, hs, h2, hr]
            rw [if_neg (by decide : ¬ ("both" = "urls"))]
            exact ⟨[smsLink], rfl⟩
          | some regLink =>
            cases h3 : env 3 regLink with
            | err e =>
              simp only [handleMC, extractOne, h0, hv, h1, hs, h2, hr, h3]
              rw [if_neg (by decide : ¬ ("both" = "urls"))]
              exact ⟨[smsLink, regLink], rfl⟩
            | ok regHtml =>
              simp only [handleMC, extractOne, h0, hv, h1, hs, h2, hr, h3]
              rw [if_neg (by decide : ¬ ("both" = "urls"))]
              exact ⟨[smsLink, regLink], rfl⟩
  · intro html2 h1
    cases hs : findSmsLink R (mcToSnapshotUrl mc) html2 with
    | none =>
      simp only [handleMC, extractOne, h0, hv, h1, hs]
      rw [if_neg (by decide : ¬ ("both" = "urls"))]
      exact ⟨_, _, rfl, rfl, fun _ => rfl⟩
    | some smsLink =>
      cases h2 : env 2 smsLink with
      | err e =>
        simp only [handleMC, extractOne, h0, hv, h1, hs, h2]
        rw [if_neg (by decide : ¬ ("both" = "urls"))]
        exact ⟨_, _, rfl, rfl, fun hcon => Option.noConfusion hcon⟩
      | ok smsHtml =>
        cases hr : findRegLink R smsLink smsHtml with
        | none =>
          simp only [handleMC, extractOne, h0, hv, h1, hs, h2, hr]
          rw [if_neg (by decide : ¬ ("both" = "urls"))]
          exact ⟨_, _, rfl, rfl, fun hcon => Option.noConfusion hcon⟩
        | some regLink =>
          cases h3 : env 3 regLink with
          | err e =>
            simp only [handleMC, extractOne, h0, hv, h1, hs, h2, hr, h3]
            rw [if_neg (by decide : ¬ ("both" = "urls"))]
            exact ⟨_, _, rfl, rfl, fun hcon => Option.noConfusion hcon⟩
          | ok regHtml =>
            simp only [handleMC, extractOne, h0, hv, h1, hs, h2, hr, h3]
            rw [if_neg (by decide : ¬ ("both" = "urls"))]
            exact ⟨_, _, rfl, rfl, fun hcon => Option.noConfusion hcon⟩
  · intro e h1
    simp only [handleMC, extractOne, h0, hv, h1]
    rw [if_neg (by decide : ¬ ("both" = "urls"))]

/-- Witness for C10: with different pages served by the gate fetch and the
re-fetch, the record's registry number is the one on the re-fetched page. -/
theorem c10_refetch_lookup_witness :
    (handleMC (fun _ h => h)
      (fun k _ => if k = 0 then FetchRes.ok "Power Units: 4" else FetchRes.ok "MC-333444 Power Units: 4")
      "both" "3").1 =
      Outcome.validRow (mcToSnapshotUrl "3")
        ⟨"", "MC-333444", "", mcToSnapshotUrl "3"⟩ := by
  obtain ⟨row, tr, heq, hmc, hrow⟩ := (c10_refetch_lookup (fun _ h => h)
    (fun k _ => if k = 0 then FetchRes.ok "Power Units: 4" else FetchRes.ok "MC-333444 Power Units: 4")
    "3" "Power Units: 4" rfl (by decide)).2.1 "MC-333444 Power Units: 4" rfl
  have hr2 := hrow (by decide)
  have h1 : extractMC "MC-333444 Power Units: 4" = "MC-333444" := by decide
  have h2 : extractPhoneAnywhere "MC-333444 Power Units: 4" = "" := by decide
  rw [heq]
  rw [hr2, h1, h2]
